import Mathlib

/-!
Verification of the reading-position-bounded context accumulator of the
book-sync application: the per-book Context Store (bookContextStore), the
chat session state (aiAssistantStore), the chat hook (useAIChat), the PDF
extraction coordinator (useTextExtraction) and the assistant gateway route.

The TypeScript code is shallowly embedded: JavaScript numbers are modelled
as exact rationals (ℚ), JS strings as Lean strings, JS `Map` as an
insertion-ordered association list, and each store action as a pure
function on an explicit state record.  `Array.prototype.sort` (stable
since ES2019, so its output on a consistent comparator is fully determined)
is modelled by a stable structural insertion sort.
-/

namespace BookSync

/-! ### JavaScript primitive models -/

/-- Characters treated as whitespace by JS `String.prototype.trim` and by
the leading-whitespace skip of `parseFloat` (the common ones; exotic
Unicode space code points are omitted, no claim exercises them). -/
def jsWhitespace : List Char :=
  [' ', '\t', '\n', '\r', Char.ofNat 0x0B, Char.ofNat 0x0C, Char.ofNat 0xA0, Char.ofNat 0xFEFF]

def isJsWhitespace (c : Char) : Bool := jsWhitespace.contains c

/-- Model of JS `String.prototype.trim`: strip leading and trailing
whitespace. -/
def jsTrim (s : String) : String :=
  ⟨((s.data.dropWhile isJsWhitespace).reverse.dropWhile isJsWhitespace).reverse⟩

def digitVal (c : Char) : ℕ := c.toNat - '0'.toNat

def natOfDigits (ds : List Char) : ℕ := ds.foldl (fun n c => n * 10 + digitVal c) 0

/-- Mantissa of a JS float literal: digits, optionally followed by a dot and
further digits; at least one digit overall.  Returns the mantissa digits as
a natural number, the number of fraction digits, and the unconsumed
characters (the mantissa value is `digits / 10 ^ fracLen`). -/
def parseMantissa (cs : List Char) : Option (ℕ × ℕ × List Char) :=
  let intDs := cs.takeWhile Char.isDigit
  let rest₁ := cs.dropWhile Char.isDigit
  match rest₁ with
  | '.' :: rest₂ =>
      let fracDs := rest₂.takeWhile Char.isDigit
      let rest₃ := rest₂.dropWhile Char.isDigit
      if intDs.isEmpty && fracDs.isEmpty then none
      else some (natOfDigits intDs * 10 ^ fracDs.length + natOfDigits fracDs, fracDs.length, rest₃)
  | _ =>
      if intDs.isEmpty then none
      else some (natOfDigits intDs, 0, rest₁)

/-- Optional exponent suffix `e`/`E`, optional sign, digits, as a signed
power of ten.  When the suffix is not well formed it is not consumed (as in
JS, where `parseFloat` parses the longest valid numeric prefix). -/
def parseExponent (cs : List Char) : ℤ :=
  match cs with
  | e :: rest₁ =>
      if e = 'e' ∨ e = 'E' then
        let (neg, rest₂) :=
          match rest₁ with
          | '-' :: r => (true, r)
          | '+' :: r => (false, r)
          | r => (false, r)
        let ds := rest₂.takeWhile Char.isDigit
        if ds.isEmpty then 0
        else if neg then -(natOfDigits ds : ℤ) else (natOfDigits ds : ℤ)
      else 0
  | [] => 0

/-- Model of JS `parseFloat`: skip leading whitespace, optional sign,
mantissa, optional exponent; `none` models `NaN`.  IEEE doubles are
idealised as exact rationals; the `Infinity` literal is not modelled (no
claim exercises it).  The value is assembled with `mkRat` over integer
arithmetic. -/
def jsParseFloat (s : String) : Option ℚ :=
  let cs := s.data.dropWhile isJsWhitespace
  let (neg, rest) : Bool × List Char :=
    match cs with
    | '-' :: r => (true, r)
    | '+' :: r => (false, r)
    | r => (false, r)
  match parseMantissa rest with
  | none => none
  | some (m, fracLen, rest') =>
      let e := parseExponent rest'
      if 0 ≤ e then
        let scaled : ℕ := m * 10 ^ e.toNat
        some (mkRat (if neg then -(scaled : ℤ) else (scaled : ℤ)) (10 ^ fracLen))
      else
        some (mkRat (if neg then -(m : ℤ) else (m : ℤ)) (10 ^ fracLen * 10 ^ (-e).toNat))

/-- Model of the coercion `parseFloat(x) || 0` used throughout the store:
`NaN` (a non-numeric string) coerces to `0`, and a parsed `0` is mapped to
`0` by `|| 0` as well, so the defaulting is exactly `Option.getD`. -/
def parseFloatOr0 (s : String) : ℚ := (jsParseFloat s).getD 0

/-- JS `Map.prototype.get` on an insertion-ordered association list. -/
def jsMapGet {α : Type} (m : List (String × α)) (k : String) : Option α :=
  match m with
  | [] => none
  | (k', v) :: rest => if k' = k then some v else jsMapGet rest k

/-- JS `Map.prototype.set`: update in place if the key is present
(preserving insertion order), otherwise append. -/
def jsMapSet {α : Type} (m : List (String × α)) (k : String) (v : α) : List (String × α) :=
  match m with
  | [] => [(k, v)]
  | (k', v') :: rest => if k' = k then (k', v) :: rest else (k', v') :: jsMapSet rest k v

/-- JS `Map.prototype.delete`. -/
def jsMapDelete {α : Type} (m : List (String × α)) (k : String) : List (String × α) :=
  m.filter (fun p => p.1 != k)

/-! ### Context Store (`bookContextStore`) -/

abbrev BookId := String

/-- The `pageOrChapter` field has TypeScript type `number | string`; JS
strict equality `===` on it never identifies a number with a string, which
this sum type reproduces. -/
inductive PosKey where
  | num (value : ℚ)
  | str (value : String)
deriving DecidableEq, Repr

/-- The numeric coercion applied to `pageOrChapter` everywhere in the
store: `typeof x === 'number' ? x : parseFloat(x) || 0`. -/
def coercePos : PosKey → ℚ
  | .num v => v
  | .str s => parseFloatOr0 s

structure BookContextChunk where
  pageOrChapter : PosKey
  text : String
  timestamp : ℕ
deriving DecidableEq, Repr

structure BookContextState where
  contextChunks : List (BookId × List BookContextChunk)
  currentBookId : Option BookId
  currentPosition : ℚ
deriving DecidableEq, Repr

def initialBookContextState : BookContextState :=
  { contextChunks := [], currentBookId := none, currentPosition := 0 }

/-- Source expression `contextChunks.get(bookId) || []`. -/
def bookChunks (st : BookContextState) (bookId : BookId) : List BookContextChunk :=
  (jsMapGet st.contextChunks bookId).getD []

def setCurrentBook (bookId : BookId) (st : BookContextState) : BookContextState :=
  let st := { st with currentBookId := some bookId }
  match jsMapGet st.contextChunks bookId with
  | some _ => st
  | none => { st with contextChunks := jsMapSet st.contextChunks bookId [] }

/-- Numeric order on position keys after coercion. -/
def keyNumLE (a b : PosKey) : Prop := coercePos a ≤ coercePos b

instance : DecidableRel keyNumLE := fun a b =>
  inferInstanceAs (Decidable (coercePos a ≤ coercePos b))

/-- Comparator order used by every sort in the store:
`(a, b) => aNum - bNum` on the coerced keys. -/
def chunkLE (a b : BookContextChunk) : Prop :=
  keyNumLE a.pageOrChapter b.pageOrChapter

instance : DecidableRel chunkLE := fun a b =>
  inferInstanceAs (Decidable (keyNumLE a.pageOrChapter b.pageOrChapter))

instance : IsTotal BookContextChunk chunkLE := ⟨fun _ _ => le_total _ _⟩

instance : IsTrans BookContextChunk chunkLE := ⟨fun _ _ _ h h' => le_trans h h'⟩

/-- Model of `existing.sort((a, b) => aNum - bNum)`: the ascending stable
reordering of the array by coerced key. -/
def sortChunks (l : List BookContextChunk) : List BookContextChunk :=
  List.insertionSort chunkLE l

/-- JS `Array.prototype.findIndex` (`none` models `-1`). -/
def jsFindIndex {α : Type} (p : α → Bool) : List α → Option ℕ
  | [] => none
  | a :: as => if p a then some 0 else (jsFindIndex p as).map (· + 1)

/-- The in-place update `existing[existingIndex] = chunk` guarded by
`chunk.text.length > existing[existingIndex].text.length`. -/
def mergeAt (existing : List BookContextChunk) (i : ℕ) (chunk : BookContextChunk) :
    List BookContextChunk :=
  match existing[i]? with
  | some old => if chunk.text.length > old.text.length then existing.set i chunk else existing
  | none => existing

/-- The updated chunk array computed by `addContextChunk`: merge in place
when a chunk with strictly-equal (`===`) `pageOrChapter` exists (replacing
only when the new text is strictly longer), otherwise push and re-sort. -/
def addChunkList (existing : List BookContextChunk) (chunk : BookContextChunk) :
    List BookContextChunk :=
  match jsFindIndex (fun c => c.pageOrChapter == chunk.pageOrChapter) existing with
  | some i => mergeAt existing i chunk
  | none => sortChunks (existing ++ [chunk])

def addContextChunk (bookId : BookId) (chunk : BookContextChunk) (st : BookContextState) :
    BookContextState :=
  { st with contextChunks := jsMapSet st.contextChunks bookId (addChunkList (bookChunks st bookId) chunk) }

def clearContext (bookId : BookId) (st : BookContextState) : BookContextState :=
  { st with contextChunks := jsMapDelete st.contextChunks bookId }

def updatePosition (position : ℚ) (st : BookContextState) : BookContextState :=
  { st with currentPosition := position }

/-- Value of `Number.MAX_SAFE_INTEGER` = 2^53 − 1, the bound substituted when
`upToPosition` is omitted. -/
def maxSafeInteger : ℚ := 9007199254740991

/-- The chunk list selected by `getFullContext`: filter to coerced key
`<= maxPosition`, then sort ascending. -/
def getFullContextChunks (st : BookContextState) (bookId : BookId) (upToPosition : Option ℚ) :
    List BookContextChunk :=
  let chunks := bookChunks st bookId
  let maxPosition := upToPosition.getD maxSafeInteger
  let relevantChunks := chunks.filter (fun c => coercePos c.pageOrChapter ≤ maxPosition)
  sortChunks relevantChunks

def getFullContext (st : BookContextState) (bookId : BookId) (upToPosition : Option ℚ) : String :=
  String.intercalate "\n\n" ((getFullContextChunks st bookId upToPosition).map (·.text))

/-- The store actions reachable-state operations range over. -/
inductive CtxOp where
  | setCurrentBook (bookId : BookId)
  | addContextChunk (bookId : BookId) (chunk : BookContextChunk)
  | clearContext (bookId : BookId)
  | updatePosition (position : ℚ)

def applyCtxOp (st : BookContextState) : CtxOp → BookContextState
  | .setCurrentBook b => setCurrentBook b st
  | .addContextChunk b c => addContextChunk b c st
  | .clearContext b => clearContext b st
  | .updatePosition p => updatePosition p st

def runCtxOps (ops : List CtxOp) : BookContextState :=
  ops.foldl applyCtxOp initialBookContextState

/-! ### Map and findIndex lemmas -/

theorem jsMapGet_set {α : Type} (m : List (String × α)) (k k' : String) (v : α) :
    jsMapGet (jsMapSet m k v) k' = if k' = k then some v else jsMapGet m k' := by
  induction m with
  | nil =>
      rcases eq_or_ne k k' with h | h
      · subst h; simp [jsMapSet, jsMapGet]
      · simp [jsMapSet, jsMapGet, h.symm, h]
  | cons hd tl ih =>
      obtain ⟨k₁, v₁⟩ := hd
      by_cases h1 : k₁ = k
      · subst h1
        by_cases h2 : k₁ = k'
        · subst h2; simp [jsMapSet, jsMapGet]
        · simp [jsMapSet, jsMapGet, h2, Ne.symm h2]
      · by_cases h2 : k₁ = k'
        · subst h2
          simp [jsMapSet, jsMapGet, h1, Ne.symm h1]
        · simp [jsMapSet, jsMapGet, h1, h2, ih]

theorem jsMapSet_get_self {α : Type} (m : List (String × α)) (k : String) (v : α)
    (h : jsMapGet m k = some v) : jsMapSet m k v = m := by
  induction m with
  | nil => simp [jsMapGet] at h
  | cons hd tl ih =>
      obtain ⟨k₁, v₁⟩ := hd
      by_cases h1 : k₁ = k
      · simp [jsMapGet, h1] at h
        simp [jsMapSet, h1, h]
      · simp [jsMapGet, h1] at h
        simp [jsMapSet, h1, ih h]

theorem jsMapGet_delete {α : Type} (m : List (String × α)) (k k' : String) :
    jsMapGet (jsMapDelete m k) k' = if k' = k then none else jsMapGet m k' := by
  induction m with
  | nil => simp [jsMapDelete, jsMapGet]
  | cons hd tl ih =>
      obtain ⟨k₁, v₁⟩ := hd
      by_cases h1 : k₁ = k
      · subst h1
        rcases eq_or_ne k₁ k' with h2 | h2
        · subst h2; simp [jsMapDelete, jsMapGet] at ih ⊢; simpa using ih
        · simp [jsMapDelete, jsMapGet, h2] at ih ⊢; simpa [Ne.symm h2] using ih
      · by_cases h2 : k₁ = k'
        · subst h2
          simp [jsMapDelete, jsMapGet, h1, Ne.symm h1]
        · simp [jsMapDelete, jsMapGet, h1, h2] at ih ⊢; exact ih

theorem jsFindIndex_eq_none {α : Type} {p : α → Bool} {l : List α}
    (h : jsFindIndex p l = none) : ∀ x ∈ l, p x = false := by
  induction l with
  | nil => intro x hx; cases hx
  | cons a as ih =>
      intro x hx
      by_cases ha : p a
      · simp [jsFindIndex, ha] at h
      · simp only [jsFindIndex, ha, Bool.false_eq_true, if_false] at h
        have h' : jsFindIndex p as = none := by
          cases hmap : jsFindIndex p as with
          | some j => rw [hmap] at h; simp at h
          | none => rfl
        rcases List.mem_cons.mp hx with rfl | hx'
        · simpa using ha
        · exact ih h' x hx'

theorem jsFindIndex_get {α : Type} {p : α → Bool} {l : List α} {i : ℕ}
    (h : jsFindIndex p l = some i) : ∃ x, l[i]? = some x ∧ p x = true := by
  induction l generalizing i with
  | nil => simp [jsFindIndex] at h
  | cons a as ih =>
      by_cases ha : p a
      · simp only [jsFindIndex, ha, if_true] at h
        obtain rfl : i = 0 := by simpa using h.symm
        exact ⟨a, by simp, ha⟩
      · simp only [jsFindIndex, ha, Bool.false_eq_true, if_false] at h
        cases hmap : jsFindIndex p as with
        | some j =>
            rw [hmap] at h
            obtain rfl : j + 1 = i := by simpa using h
            obtain ⟨x, hx, hpx⟩ := ih hmap
            exact ⟨x, by simpa using hx, hpx⟩
        | none => rw [hmap] at h; simp at h

theorem getAt_append_length {α : Type} (pre suf : List α) (c : α) :
    (pre ++ c :: suf)[pre.length]? = some c := by
  induction pre with
  | nil => simp
  | cons a as ih => simpa using ih

theorem set_append_length {α : Type} (pre suf : List α) (c d : α) :
    (pre ++ c :: suf).set pre.length d = pre ++ d :: suf := by
  induction pre with
  | nil => rfl
  | cons a as ih => simp [List.set, ih]

/-! ### Store invariant: strict-key uniqueness and ascending order -/

def keyList (l : List BookContextChunk) : List PosKey := l.map (·.pageOrChapter)

/-- Invariant of a book's chunk array: `pageOrChapter` keys are pairwise
distinct under strict (`===`) equality, and the array is ascending by
coerced numeric key. -/
def ChunksInv (l : List BookContextChunk) : Prop :=
  (keyList l).Pairwise Ne ∧ (keyList l).Pairwise keyNumLE

theorem keyList_set {l : List BookContextChunk} {i : ℕ} {old chunk : BookContextChunk}
    (hg : l[i]? = some old) (hk : old.pageOrChapter = chunk.pageOrChapter) :
    keyList (l.set i chunk) = keyList l := by
  induction l generalizing i with
  | nil => simp at hg
  | cons a as ih =>
      cases i with
      | zero =>
          obtain rfl : a = old := by simpa using hg
          simp [keyList, List.set, hk]
      | succ j =>
          simp only [List.getElem?_cons_succ] at hg
          simp [keyList, List.set] at ih ⊢
          exact ih hg

theorem chunksInv_mergeAt (l : List BookContextChunk) (i : ℕ) (chunk : BookContextChunk)
    (hkey : ∀ x, l[i]? = some x → x.pageOrChapter = chunk.pageOrChapter)
    (h : ChunksInv l) : ChunksInv (mergeAt l i chunk) := by
  unfold mergeAt
  cases hx : l[i]? with
  | some old =>
      by_cases hlen : chunk.text.length > old.text.length
      · simp only [hlen, if_true]
        have hk : old.pageOrChapter = chunk.pageOrChapter := hkey old hx
        exact ⟨by rw [keyList_set hx hk]; exact h.1, by rw [keyList_set hx hk]; exact h.2⟩
      · simpa [hlen] using h
  | none => exact h

theorem chunksInv_addChunkList (l : List BookContextChunk) (chunk : BookContextChunk)
    (h : ChunksInv l) : ChunksInv (addChunkList l chunk) := by
  unfold addChunkList
  cases hfi : jsFindIndex (fun c => c.pageOrChapter == chunk.pageOrChapter) l with
  | some i =>
      obtain ⟨x, hx, hpx⟩ := jsFindIndex_get hfi
      refine chunksInv_mergeAt l i chunk ?_ h
      intro y hy
      rw [hx] at hy
      obtain rfl : x = y := by simpa using hy
      simpa using hpx
  | none =>
      have hall := jsFindIndex_eq_none hfi
      have hperm : (sortChunks (l ++ [chunk])).Perm (l ++ [chunk]) :=
        List.perm_insertionSort _ _
      have hkperm : (keyList (sortChunks (l ++ [chunk]))).Perm (keyList (l ++ [chunk])) :=
        hperm.map _
      constructor
      · refine (hkperm.pairwise_iff fun h => h.symm).mpr ?_
        have hne : ∀ c ∈ l, c.pageOrChapter ≠ chunk.pageOrChapter := by
          intro c hc
          have := hall c hc
          simpa using this
        simp only [keyList, List.map_append, List.map_singleton, List.pairwise_append]
        refine ⟨h.1, List.pairwise_singleton _ _, ?_⟩
        intro a ha b hb
        simp only [List.mem_singleton] at hb
        subst hb
        simp only [List.mem_map] at ha
        obtain ⟨c, hc, rfl⟩ := ha
        exact hne c hc
      · have hsorted : List.Sorted chunkLE (sortChunks (l ++ [chunk])) :=
          List.sorted_insertionSort chunkLE (l ++ [chunk])
        exact List.pairwise_map.mpr hsorted

def StoreInv (st : BookContextState) : Prop := ∀ b, ChunksInv (bookChunks st b)

theorem bookChunks_mapSet (st : BookContextState) (b b' : BookId) (l : List BookContextChunk) :
    bookChunks { st with contextChunks := jsMapSet st.contextChunks b l } b'
      = if b' = b then l else bookChunks st b' := by
  simp only [bookChunks, jsMapGet_set]
  split <;> rfl

theorem chunksInv_nil : ChunksInv [] := ⟨List.Pairwise.nil, List.Pairwise.nil⟩

theorem storeInv_initial : StoreInv initialBookContextState := by
  intro b
  simp only [bookChunks, initialBookContextState, jsMapGet, Option.getD_none]
  exact chunksInv_nil

theorem storeInv_apply (st : BookContextState) (op : CtxOp) (h : StoreInv st) :
    StoreInv (applyCtxOp st op) := by
  cases op with
  | setCurrentBook b =>
      intro b'
      simp only [applyCtxOp, setCurrentBook]
      cases hg : jsMapGet st.contextChunks b with
      | some l => exact h b'
      | none =>
          have := bookChunks_mapSet { st with currentBookId := some b } b b' []
          simp only [bookChunks] at this ⊢
          rw [this]
          split
          · exact chunksInv_nil
          · exact h b'
  | addContextChunk b c =>
      intro b'
      simp only [applyCtxOp, addContextChunk]
      rw [bookChunks_mapSet]
      split
      · exact chunksInv_addChunkList _ _ (h b)
      · exact h b'
  | clearContext b =>
      intro b'
      simp only [applyCtxOp, clearContext, bookChunks, jsMapGet_delete]
      split
      · exact chunksInv_nil
      · exact h b'
  | updatePosition p =>
      intro b'
      exact h b'

theorem storeInv_foldl (ops : List CtxOp) (st : BookContextState) (h : StoreInv st) :
    StoreInv (ops.foldl applyCtxOp st) := by
  induction ops generalizing st with
  | nil => exact h
  | cons op ops ih => exact ih _ (storeInv_apply st op h)

theorem storeInv_run (ops : List CtxOp) : StoreInv (runCtxOps ops) :=
  storeInv_foldl ops initialBookContextState storeInv_initial

theorem jsFindIndex_append_cons {α : Type} (p : α → Bool) (pre suf : List α) (c : α)
    (hpre : ∀ x ∈ pre, p x = false) (hc : p c = true) :
    jsFindIndex p (pre ++ c :: suf) = some pre.length := by
  induction pre with
  | nil => simp [jsFindIndex, hc]
  | cons a as ih =>
      have ha : p a = false := hpre a (by simp)
      have := ih (fun x hx => hpre x (by simp [hx]))
      simp [jsFindIndex, ha, this]

theorem addChunkList_found (l : List BookContextChunk) (chunk : BookContextChunk) (i : ℕ)
    (h : jsFindIndex (fun c => c.pageOrChapter == chunk.pageOrChapter) l = some i) :
    addChunkList l chunk = mergeAt l i chunk := by
  unfold addChunkList
  rw [h]

theorem mergeAt_found (l : List BookContextChunk) (i : ℕ) (chunk old : BookContextChunk)
    (h : l[i]? = some old) :
    mergeAt l i chunk
      = if chunk.text.length > old.text.length then l.set i chunk else l := by
  unfold mergeAt
  rw [h]

/-! ### Claims about the Context Store -/

theorem mem_getFullContextChunks (st : BookContextState) (bookId : BookId)
    (upToPosition : Option ℚ) (c : BookContextChunk) :
    c ∈ getFullContextChunks st bookId upToPosition ↔
      c ∈ bookChunks st bookId ∧
        coercePos c.pageOrChapter ≤ upToPosition.getD maxSafeInteger := by
  unfold getFullContextChunks sortChunks
  rw [(List.perm_insertionSort chunkLE _).mem_iff]
  simp [List.mem_filter]

/-- C1, amended: a position-bounded read `getFullContext(B, P)` selects a
chunk if and only if the chunk is stored for `B` and its numeric coerced
`positionKey` is at most the effective bound — `P` itself when given, and
`Number.MAX_SAFE_INTEGER` when `P` is omitted.  In particular no chunk with
coerced key above `P` is ever selected; but with `P` omitted a chunk keyed
above `MAX_SAFE_INTEGER` is (contrary to the original claim) excluded. -/
theorem c1_bounded_read_membership (st : BookContextState) (bookId : BookId)
    (upToPosition : Option ℚ) (c : BookContextChunk) :
    c ∈ getFullContextChunks st bookId upToPosition ↔
      c ∈ bookChunks st bookId ∧
        coercePos c.pageOrChapter ≤ upToPosition.getD maxSafeInteger :=
  mem_getFullContextChunks st bookId upToPosition c

/-- C1, counterexample to the original claim: with the position bound
omitted, a stored chunk whose numeric key is 2^53 (one above
`Number.MAX_SAFE_INTEGER`) is not included in the read — the unbounded read
of a book holding exactly that chunk returns the empty string. -/
theorem c1_omitted_bound_counterexample :
    (⟨.num 9007199254740992, "x", 0⟩ : BookContextChunk) ∈
        bookChunks (runCtxOps [.setCurrentBook "b",
          .addContextChunk "b" ⟨.num 9007199254740992, "x", 0⟩]) "b"
      ∧ (⟨.num 9007199254740992, "x", 0⟩ : BookContextChunk) ∉
        getFullContextChunks (runCtxOps [.setCurrentBook "b",
          .addContextChunk "b" ⟨.num 9007199254740992, "x", 0⟩]) "b" none
      ∧ getFullContext (runCtxOps [.setCurrentBook "b",
          .addContextChunk "b" ⟨.num 9007199254740992, "x", 0⟩]) "b" none = "" := by
  decide

/-- C4: inserting a chunk at an occupied `positionKey` (strict `===` key
equality, with the key not occurring earlier in the array) replaces the
stored chunk exactly when the new text is strictly longer; with shorter or
equal text the whole store state is unchanged. -/
theorem c4_merge_wins_longer (st : BookContextState) (bookId : BookId)
    (cold cnew : BookContextChunk) (pre suf : List BookContextChunk)
    (hb : bookChunks st bookId = pre ++ cold :: suf)
    (hpre : ∀ c ∈ pre, c.pageOrChapter ≠ cnew.pageOrChapter)
    (hk : cold.pageOrChapter = cnew.pageOrChapter) :
    (cnew.text.length ≤ cold.text.length → addContextChunk bookId cnew st = st)
      ∧ (cold.text.length < cnew.text.length →
          addContextChunk bookId cnew st
            = { st with contextChunks :=
                  jsMapSet st.contextChunks bookId (pre ++ cnew :: suf) }) := by
  have hm : jsMapGet st.contextChunks bookId = some (pre ++ cold :: suf) := by
    cases hg : jsMapGet st.contextChunks bookId with
    | none =>
        rw [bookChunks, hg] at hb
        simp at hb
    | some l =>
        rw [bookChunks, hg] at hb
        simp only [Option.getD_some] at hb
        rw [hb]
  have hfi : jsFindIndex (fun c => c.pageOrChapter == cnew.pageOrChapter)
      (pre ++ cold :: suf) = some pre.length :=
    jsFindIndex_append_cons _ pre suf cold
      (fun x hx => by simpa using hpre x hx) (by simpa using hk)
  constructor
  · intro hle
    have hnot : ¬ (cnew.text.length > cold.text.length) := not_lt.mpr hle
    have hlist : addChunkList (bookChunks st bookId) cnew = bookChunks st bookId := by
      rw [hb, addChunkList_found _ _ _ hfi,
        mergeAt_found _ _ _ _ (getAt_append_length pre suf cold), if_neg hnot]
    have hset : jsMapSet st.contextChunks bookId (bookChunks st bookId) = st.contextChunks := by
      rw [bookChunks, hm, Option.getD_some]
      exact jsMapSet_get_self _ _ _ hm
    unfold addContextChunk
    rw [hlist, hset]
  · intro hlt
    have hlist : addChunkList (bookChunks st bookId) cnew = pre ++ cnew :: suf := by
      rw [hb, addChunkList_found _ _ _ hfi,
        mergeAt_found _ _ _ _ (getAt_append_length pre suf cold), if_pos hlt,
        set_append_length]
    unfold addContextChunk
    rw [hlist]

/-- C4 witness: on a book holding the single chunk at key 3 with text
"ab", inserting text "a" (shorter) at key 3 leaves the store unchanged. -/
theorem c4_merge_wins_longer_witness :
    addContextChunk "b" ⟨.num 3, "a", 1⟩
        (runCtxOps [.setCurrentBook "b", .addContextChunk "b" ⟨.num 3, "ab", 0⟩])
      = runCtxOps [.setCurrentBook "b", .addContextChunk "b" ⟨.num 3, "ab", 0⟩] :=
  (c4_merge_wins_longer
      (runCtxOps [.setCurrentBook "b", .addContextChunk "b" ⟨.num 3, "ab", 0⟩]) "b"
      ⟨.num 3, "ab", 0⟩ ⟨.num 3, "a", 1⟩ [] []
      (by decide) (by decide) (by decide)).1 (by decide)

/-- C5, counterexample to the original claim: the store deduplicates keys
by strict `===` equality only, so the numeric key `3` and the string key
`"3"` — equal under the store's numeric coercion — coexist as two chunks
of the same book. -/
theorem c5_coercion_dedup_counterexample :
    (⟨.num 3, "a", 0⟩ : BookContextChunk) ∈
        bookChunks (runCtxOps [.setCurrentBook "b",
          .addContextChunk "b" ⟨.num 3, "a", 0⟩,
          .addContextChunk "b" ⟨.str "3", "b", 1⟩]) "b"
      ∧ (⟨.str "3", "b", 1⟩ : BookContextChunk) ∈
        bookChunks (runCtxOps [.setCurrentBook "b",
          .addContextChunk "b" ⟨.num 3, "a", 0⟩,
          .addContextChunk "b" ⟨.str "3", "b", 1⟩]) "b"
      ∧ coercePos (.num 3) = coercePos (.str "3")
      ∧ (PosKey.num 3) ≠ (PosKey.str "3") := by
  decide

/-- C5, amended: after any sequence of store operations, a book's chunks
have pairwise distinct `positionKey`s under strict (`===`) equality — at
most one chunk per exact key; distinctness under numeric coercion does not
hold (a number and a numeric string with the same value may coexist). -/
theorem c5_strict_key_uniqueness (ops : List CtxOp) (bookId : BookId) :
    (bookChunks (runCtxOps ops) bookId).Pairwise
      (fun c d => c.pageOrChapter ≠ d.pageOrChapter) := by
  have hinv := storeInv_run ops bookId
  have h1 : List.Pairwise Ne
      ((bookChunks (runCtxOps ops) bookId).map (fun c => c.pageOrChapter)) := hinv.1
  exact List.pairwise_map.mp h1

/-- C6: after any operation sequence a book's stored chunk list is
ascending by coerced numeric key; every bounded read selects exactly the
stored chunks within the bound, in that ascending order, and returns their
texts joined by a blank line. -/
theorem c6_sorted_ascending_read (ops : List CtxOp) (bookId : BookId)
    (upToPosition : Option ℚ) :
    List.Sorted chunkLE (bookChunks (runCtxOps ops) bookId)
      ∧ getFullContextChunks (runCtxOps ops) bookId upToPosition
          = (bookChunks (runCtxOps ops) bookId).filter
              (fun c => coercePos c.pageOrChapter ≤ upToPosition.getD maxSafeInteger)
      ∧ List.Sorted chunkLE (getFullContextChunks (runCtxOps ops) bookId upToPosition)
      ∧ getFullContext (runCtxOps ops) bookId upToPosition
          = String.intercalate "\n\n"
              ((getFullContextChunks (runCtxOps ops) bookId upToPosition).map (·.text)) := by
  have hinv := storeInv_run ops bookId
  have h2 : List.Pairwise keyNumLE
      ((bookChunks (runCtxOps ops) bookId).map (fun c => c.pageOrChapter)) := hinv.2
  have hsorted : List.Sorted chunkLE (bookChunks (runCtxOps ops) bookId) :=
    (List.pairwise_map (f := fun c : BookContextChunk => c.pageOrChapter)
      (R := keyNumLE) (l := bookChunks (runCtxOps ops) bookId)).mp h2
  have hfsorted : List.Sorted chunkLE
      ((bookChunks (runCtxOps ops) bookId).filter
        (fun c => coercePos c.pageOrChapter ≤ upToPosition.getD maxSafeInteger)) :=
    hsorted.filter _
  have heq : getFullContextChunks (runCtxOps ops) bookId upToPosition
      = (bookChunks (runCtxOps ops) bookId).filter
          (fun c => coercePos c.pageOrChapter ≤ upToPosition.getD maxSafeInteger) := by
    unfold getFullContextChunks sortChunks
    exact List.Sorted.insertionSort_eq hfsorted
  refine ⟨hsorted, heq, ?_, rfl⟩
  rw [heq]
  exact hfsorted

/-! ### Chat session store (`aiAssistantStore`) -/

inductive ChatRole where
  | user
  | assistant
deriving DecidableEq, Repr

structure ChatMessage where
  id : String
  role : ChatRole
  content : String
  timestamp : ℕ
deriving DecidableEq, Repr

structure AIAssistantState where
  chatHistory : List (BookId × List ChatMessage)
  isLoading : Bool
  streamingResponse : String
  error : Option String
deriving DecidableEq, Repr

def initialAIAssistantState : AIAssistantState :=
  { chatHistory := [], isLoading := false, streamingResponse := "", error := none }

/-- Source `getChatHistory`: `chatHistory.get(bookId) || []`. -/
def chatHistoryOf (st : AIAssistantState) (bookId : BookId) : List ChatMessage :=
  (jsMapGet st.chatHistory bookId).getD []

def addMessage (bookId : BookId) (message : ChatMessage) (st : AIAssistantState) :
    AIAssistantState :=
  { st with chatHistory :=
      jsMapSet st.chatHistory bookId (chatHistoryOf st bookId ++ [message]) }

def setLoading (loading : Bool) (st : AIAssistantState) : AIAssistantState :=
  { st with isLoading := loading }

def setStreamingResponse (response : String) (st : AIAssistantState) : AIAssistantState :=
  { st with streamingResponse := response }

def appendStreamingResponse (chunk : String) (st : AIAssistantState) : AIAssistantState :=
  { st with streamingResponse := st.streamingResponse ++ chunk }

def setError (e : Option String) (st : AIAssistantState) : AIAssistantState :=
  { st with error := e }

def clearChat (bookId : BookId) (st : AIAssistantState) : AIAssistantState :=
  { st with chatHistory := jsMapDelete st.chatHistory bookId }

/-- Source `finalizeStreamingMessage`: when the streaming buffer is truthy
(non-empty), wrap it into an assistant message with a fresh id/timestamp
(`Date.now()` is passed in as `now`), append it, and clear the buffer;
otherwise do nothing. -/
def finalizeStreamingMessage (now : ℕ) (bookId : BookId) (st : AIAssistantState) :
    AIAssistantState :=
  if st.streamingResponse ≠ "" then
    let message : ChatMessage :=
      { id := "assistant-" ++ toString now, role := .assistant,
        content := st.streamingResponse, timestamp := now }
    { addMessage bookId message st with streamingResponse := "" }
  else st

/-- C10: finalizing with an empty streaming buffer is a complete no-op (the
whole state is returned unchanged), and any message that finalization does
append carries the non-empty buffer as its content — so finalization never
adds an empty assistant message to any book's history. -/
theorem c10_finalize_empty_noop (now : ℕ) (bookId b' : BookId) (st : AIAssistantState) :
    (st.streamingResponse = "" → finalizeStreamingMessage now bookId st = st)
      ∧ ∀ m ∈ chatHistoryOf (finalizeStreamingMessage now bookId st) b',
          m ∈ chatHistoryOf st b'
            ∨ (m.role = .assistant ∧ m.content = st.streamingResponse
                ∧ st.streamingResponse ≠ "") := by
  unfold finalizeStreamingMessage
  by_cases h : st.streamingResponse = ""
  · rw [if_neg (fun hne => hne h)]
    exact ⟨fun _ => rfl, fun m hm => Or.inl hm⟩
  · rw [if_pos h]
    refine ⟨fun hc => absurd hc h, ?_⟩
    intro m hm
    simp only [chatHistoryOf, addMessage] at hm
    rw [jsMapGet_set] at hm
    by_cases hb : b' = bookId
    · simp only [hb, if_true, Option.getD_some, List.mem_append, List.mem_singleton] at hm
      rcases hm with hm | hm
      · exact Or.inl (hb ▸ hm)
      · subst hm
        exact Or.inr ⟨rfl, rfl, h⟩
    · simp only [hb, if_false] at hm
      exact Or.inl hm

/-- C10 witness: finalizing on the initial state (empty buffer) returns the
state unchanged. -/
theorem c10_finalize_empty_noop_witness :
    finalizeStreamingMessage 5 "b" initialAIAssistantState = initialAIAssistantState :=
  (c10_finalize_empty_noop 5 "b" "b" initialAIAssistantState).1 rfl

/-! ### Chat hook (`useAIChat`)

The hook couples the chat store with a shared mutable
`abortControllerRef`.  Controllers are modelled by request ids: `abortRef`
is the id whose controller currently occupies the ref (`none` = `null`),
and `aborted` records every id whose controller has had `.abort()` called.
An async function is split at its `await` points; the scheduler of the
single-threaded event loop runs the pieces atomically. -/

structure AIChatScenState where
  chat : AIAssistantState
  abortRef : Option ℕ
  aborted : List ℕ
deriving DecidableEq, Repr

def initialAIChatScenState : AIChatScenState :=
  { chat := initialAIAssistantState, abortRef := none, aborted := [] }

def noContentError : String :=
  "No content has been read yet. Start reading to use the AI assistant!"

inductive SendPrologueResult where
  | earlyReturn
  | emptyContextReturn
  | fetchStarted (bookContext : String)
deriving DecidableEq, Repr

/-- The synchronous prologue of `sendMessage(message, position)`: everything
up to the `await fetch(...)` suspension point, executed atomically.
`capturedIsLoading` is the `isLoading` value captured by the React closure
at the render that created the callback; it equals the store's current
value except when `sendMessage` is invoked again before React re-renders.
The result records where the function suspended or returned:
`earlyReturn` for the `!message.trim() || isLoading` guard (nothing
happens), `emptyContextReturn` for the empty-context guard (after which
the `finally` block has run), and `fetchStarted` when the gateway request
was issued with the given bounded context. -/
def sendMessagePrologue (rid now : ℕ) (bookId : BookId) (message : String)
    (position : Option ℚ) (capturedIsLoading : Bool) (ctx : BookContextState)
    (s : AIChatScenState) : AIChatScenState × SendPrologueResult :=
  if jsTrim message = "" ∨ capturedIsLoading then (s, .earlyReturn)
  else
    let s₁ : AIChatScenState :=
      { s with
        aborted := match s.abortRef with
          | some a => a :: s.aborted
          | none => s.aborted,
        abortRef := some rid }
    let userMessage : ChatMessage :=
      { id := "user-" ++ toString now, role := .user, content := jsTrim message, timestamp := now }
    let s₂ := { s₁ with chat := addMessage bookId userMessage s₁.chat }
    let s₃ := { s₂ with chat := setLoading true s₂.chat }
    let s₄ := { s₃ with chat := setError none s₃.chat }
    let s₅ := { s₄ with chat := setStreamingResponse "" s₄.chat }
    let effectivePosition := position.getD ctx.currentPosition
    let bookContext := getFullContext ctx bookId (some effectivePosition)
    if bookContext = "" ∨ (jsTrim bookContext).length = 0 then
      let s₆ := { s₅ with chat := setError (some noContentError) s₅.chat }
      let s₇ := { s₆ with chat := setLoading false s₆.chat }
      let s₈ := { s₇ with chat := setLoading false s₇.chat, abortRef := none }
      (s₈, .emptyContextReturn)
    else (s₅, .fetchStarted bookContext)

/-- When an in-flight request's `fetch` (or body read) rejects with
`AbortError` after its controller was aborted, the function resumes in the
`catch` which returns immediately without touching state, and then the
`finally` block runs: `setLoading(false)` and
`abortControllerRef.current = null` — unconditionally, even if another
request has since claimed the ref. -/
def abortedFetchResume (s : AIChatScenState) : AIChatScenState :=
  { s with chat := setLoading false s.chat, abortRef := none }

/-- C2: with a non-blank message and no request already loading, when the
position-bounded context of the book is blank, `sendMessage` returns at
the empty-context guard — never reaching the gateway `fetch` — having set
the user-visible "No content has been read yet" error (the guard's full
message extends that quoted text) and ended with the loading flag
cleared. -/
theorem c2_empty_context_guard (rid now : ℕ) (bookId : BookId) (message : String)
    (position : Option ℚ) (ctx : BookContextState) (s : AIChatScenState)
    (hmsg : jsTrim message ≠ "") (hload : s.chat.isLoading = false)
    (hctx : jsTrim (getFullContext ctx bookId (some (position.getD ctx.currentPosition))) = "") :
    (sendMessagePrologue rid now bookId message position s.chat.isLoading ctx s).2
        = .emptyContextReturn
      ∧ (sendMessagePrologue rid now bookId message position s.chat.isLoading ctx s).1.chat.error
        = some noContentError
      ∧ (sendMessagePrologue rid now bookId message position s.chat.isLoading ctx s).1.chat.isLoading
        = false
      ∧ noContentError
        = "No content has been read yet" ++ ". Start reading to use the AI assistant!" := by
  rw [hload]
  unfold sendMessagePrologue
  rw [if_neg (by simp [hmsg])]
  rw [if_pos (Or.inr (by rw [hctx]; rfl))]
  exact ⟨rfl, rfl, rfl, rfl⟩

/-- C2 witness: a concrete send of "hello" on a book with no extracted
chunks. -/
theorem c2_empty_context_guard_witness :
    (sendMessagePrologue 1 0 "b" "hello" none initialAIChatScenState.chat.isLoading
          initialBookContextState initialAIChatScenState).2
        = .emptyContextReturn
      ∧ (sendMessagePrologue 1 0 "b" "hello" none initialAIChatScenState.chat.isLoading
          initialBookContextState initialAIChatScenState).1.chat.error
        = some noContentError
      ∧ (sendMessagePrologue 1 0 "b" "hello" none initialAIChatScenState.chat.isLoading
          initialBookContextState initialAIChatScenState).1.chat.isLoading
        = false
      ∧ noContentError
        = "No content has been read yet" ++ ". Start reading to use the AI assistant!" :=
  c2_empty_context_guard 1 0 "b" "hello" none initialBookContextState initialAIChatScenState
    (by decide) rfl (by decide)

/-- Book context used in the stale-request scenario: one chunk "t" at
position 1, so the bounded context at position 1 is non-blank. -/
def c3ctx : BookContextState :=
  runCtxOps [.setCurrentBook "b", .addContextChunk "b" ⟨.num 1, "t", 0⟩]

/-- Request A (id 1) starts from the idle state and suspends at its
gateway fetch. -/
def c3afterA : AIChatScenState × SendPrologueResult :=
  sendMessagePrologue 1 0 "b" "hi" (some 1) false c3ctx initialAIChatScenState

/-- Request B (id 2) is invoked while A is in flight, through the closure
created before React re-rendered, so its captured `isLoading` is still
`false`; B aborts A and suspends at its own fetch. -/
def c3afterB : AIChatScenState × SendPrologueResult :=
  sendMessagePrologue 2 1 "b" "yo" (some 1) false c3ctx c3afterA.1

/-- A's aborted fetch then rejects and A's catch/finally continuation
runs. -/
def c3final : AIChatScenState := abortedFetchResume c3afterB.1

/-- C3, counterexample to the original claim: B aborts A and is in flight
(loading set, B's controller in the slot); when A's late `AbortError`
continuation runs, its `finally` block clears the loading flag and nulls
the controller slot B is using — so A does mutate observable state after
being superseded. -/
theorem c3_stale_request_counterexample :
    c3afterA.2 = .fetchStarted "t"
      ∧ c3afterB.2 = .fetchStarted "t"
      ∧ c3afterB.1.aborted = [1]
      ∧ c3afterB.1.abortRef = some 2
      ∧ c3afterB.1.chat.isLoading = true
      ∧ c3final.chat.isLoading = false
      ∧ c3final.abortRef = none := by
  decide

/-- C3, amended: starting request B while request A's controller occupies
the slot invalidates A during B's prologue (A's controller is aborted) and
B proceeds to the gateway with loading set; when A's aborted fetch
resumes, A appends no message to any book's history and leaves the
streaming buffer and the error field untouched — but A's `finally`
cleanup does clear the loading flag and null the shared controller slot
while B is still in flight. -/
theorem c3_stale_request_suppression (ridA ridB nowB : ℕ) (bookId : BookId)
    (msgB : String) (posB : Option ℚ) (ctx : BookContextState)
    (s₁ s₂ : AIChatScenState) (r : SendPrologueResult)
    (href : s₁.abortRef = some ridA)
    (hmsg : jsTrim msgB ≠ "")
    (hctx : jsTrim (getFullContext ctx bookId (some (posB.getD ctx.currentPosition))) ≠ "")
    (hrun : sendMessagePrologue ridB nowB bookId msgB posB false ctx s₁ = (s₂, r)) :
    r = .fetchStarted (getFullContext ctx bookId (some (posB.getD ctx.currentPosition)))
      ∧ ridA ∈ s₂.aborted
      ∧ s₂.abortRef = some ridB
      ∧ s₂.chat.isLoading = true
      ∧ (∀ b, chatHistoryOf (abortedFetchResume s₂).chat b = chatHistoryOf s₂.chat b)
      ∧ (abortedFetchResume s₂).chat.streamingResponse = s₂.chat.streamingResponse
      ∧ (abortedFetchResume s₂).chat.error = s₂.chat.error
      ∧ (abortedFetchResume s₂).chat.isLoading = false
      ∧ (abortedFetchResume s₂).abortRef = none := by
  have h1 : getFullContext ctx bookId (some (posB.getD ctx.currentPosition)) ≠ "" := by
    intro he
    exact hctx (by rw [he]; rfl)
  have h2 : ¬ ((jsTrim (getFullContext ctx bookId (some (posB.getD ctx.currentPosition)))).length
      = 0) := by
    intro hl
    apply hctx
    have hd : (jsTrim (getFullContext ctx bookId (some (posB.getD ctx.currentPosition)))).data
        = [] := List.length_eq_zero.mp hl
    calc jsTrim (getFullContext ctx bookId (some (posB.getD ctx.currentPosition)))
        = ⟨(jsTrim (getFullContext ctx bookId (some (posB.getD ctx.currentPosition)))).data⟩ :=
          rfl
      _ = ⟨[]⟩ := by rw [hd]
  unfold sendMessagePrologue at hrun
  rw [if_neg (by simp [hmsg])] at hrun
  rw [if_neg (not_or.mpr ⟨h1, h2⟩)] at hrun
  rw [href] at hrun
  obtain ⟨hs, hr⟩ := Prod.mk.injEq .. ▸ hrun
  subst hs
  refine ⟨hr.symm ▸ rfl, ?_, rfl, rfl, fun b => rfl, rfl, rfl, rfl, rfl⟩
  exact List.mem_cons_self ridA _

/-- C3 witness for the amended theorem: the concrete two-request scenario
above. -/
theorem c3_stale_request_suppression_witness :
    c3afterB.2 = .fetchStarted (getFullContext c3ctx "b" (some ((some 1).getD
        c3ctx.currentPosition)))
      ∧ 1 ∈ c3afterB.1.aborted
      ∧ c3afterB.1.abortRef = some 2
      ∧ c3afterB.1.chat.isLoading = true
      ∧ (∀ b, chatHistoryOf (abortedFetchResume c3afterB.1).chat b = chatHistoryOf c3afterB.1.chat b)
      ∧ (abortedFetchResume c3afterB.1).chat.streamingResponse
        = c3afterB.1.chat.streamingResponse
      ∧ (abortedFetchResume c3afterB.1).chat.error = c3afterB.1.chat.error
      ∧ (abortedFetchResume c3afterB.1).chat.isLoading = false
      ∧ (abortedFetchResume c3afterB.1).abortRef = none :=
  c3_stale_request_suppression 1 2 1 "b" "yo" (some 1) c3ctx c3afterA.1
    c3afterB.1 c3afterB.2 (by decide) (by decide) (by decide) rfl

/-! ### PDF extraction coordinator (`useTextExtraction.extractPDFPagesUpTo`)

Pages and the `extractedPagesRef` / `extractionQueueRef` sets are modelled
over ℤ; the position value computed at the end lives in `WithBot ℤ`, whose
`⊥` models the JS number `-Infinity` (the value of `Math.max()` applied to
no arguments). -/

/-- The candidate pages of one `extractPDFPagesUpTo(pdfDoc, currentPage)`
call: `i` from 1 to `currentPage` with pages already in `extractedPagesRef`
(`donePages`) or `extractionQueueRef` (`inflight`) skipped. -/
def candidatePages (donePages inflight : List ℤ) (currentPage : ℤ) : List ℤ :=
  ((List.range currentPage.toNat).map (fun k => (k : ℤ) + 1)).filter
    (fun i => !(donePages.contains i) && !(inflight.contains i))

/-- Model of `Math.max(...arr)`: the maximum of the list in `WithBot ℤ`, `⊥`
(-Infinity) when the list is empty. -/
def jsMathMax (l : List ℤ) : WithBot ℤ :=
  l.foldr (fun p m => max (p : WithBot ℤ) m) ⊥

/-- The final `maxExtractedPage` computation of `extractPDFPagesUpTo`:
`extractedPages.length > 0 ? Math.max(...extractedPages.filter(p => p <=
currentPage)) : currentPage`, the value then passed to
`updatePosition`. -/
def finalTrackerPosition (extractedPages : List ℤ) (currentPage : ℤ) : WithBot ℤ :=
  if extractedPages.length > 0 then
    jsMathMax (extractedPages.filter (fun p => p ≤ currentPage))
  else (currentPage : WithBot ℤ)

/-- Contents of `extractedPagesRef` after all batches settle: a candidate
page is added exactly when its extraction succeeds with non-empty text
(`outcome` is the success oracle for page IO). -/
def extractPDFPagesUpToDone (donePages inflight : List ℤ) (currentPage : ℤ)
    (outcome : ℤ → Bool) : List ℤ :=
  donePages ++ (candidatePages donePages inflight currentPage).filter outcome

/-- The Position Tracker value at the end of `extractPDFPagesUpTo`. -/
def extractPDFPagesUpToTracker (donePages inflight : List ℤ) (currentPage : ℤ)
    (outcome : ℤ → Bool) : WithBot ℤ :=
  finalTrackerPosition (extractPDFPagesUpToDone donePages inflight currentPage outcome)
    currentPage

/-- C7, failing input: page 10 was extracted by an earlier call, then
`extractPDFPagesUpTo(doc, 5)` runs and every page 1..5 fails (or yields
empty text).  `extractedPages` = [10] is non-empty but no element is ≤ 5,
so `Math.max(...[])` yields -Infinity (`⊥`) and the tracker is set to it —
neither the claimed fallback `N` = 5 nor any non-negative position. -/
theorem c7_tracker_negative_infinity :
    extractPDFPagesUpToDone [10] [] 5 (fun _ => false) = [10]
      ∧ extractPDFPagesUpToTracker [10] [] 5 (fun _ => false) = ⊥
      ∧ extractPDFPagesUpToTracker [10] [] 5 (fun _ => false) ≠ ((5 : ℤ) : WithBot ℤ)
      ∧ extractPDFPagesUpToTracker [10] [] 5 (fun _ => false) < 0 := by
  refine ⟨by decide, by decide, by decide, ?_⟩
  show (extractPDFPagesUpToTracker [10] [] 5 (fun _ => false)) < ((0 : ℤ) : WithBot ℤ)
  have h : extractPDFPagesUpToTracker [10] [] 5 (fun _ => false) = ⊥ := by decide
  rw [h]
  exact WithBot.bot_lt_coe 0

/-! #### Promise-creation trace for the concurrency cap -/

inductive ExtractEvent where
  | startGetPage (page : ℤ)
  | awaitBatch (index : ℕ)
deriving DecidableEq, Repr

/-- Event trace of `extractPDFPagesUpTo` under JS event-loop semantics: an
async IIFE begins executing synchronously when created, up to its first
`await`, so the promise-creation loop invokes `pdfDoc.getPage(i)` — the
page-extraction IO — for every candidate page before the batch loop runs;
`await Promise.all(chunk)` then merely awaits the already-started promises
three at a time (`chunks` holds `slice(i, i + 3)` pieces, hence
`⌈candidates/3⌉` batches). -/
def extractPDFPagesUpToTrace (donePages inflight : List ℤ) (currentPage : ℤ) :
    List ExtractEvent :=
  let candidates := candidatePages donePages inflight currentPage
  let numBatches := (candidates.length + 2) / 3
  candidates.map .startGetPage ++ (List.range numBatches).map .awaitBatch

def isStartEvent : ExtractEvent → Bool
  | .startGetPage _ => true
  | .awaitBatch _ => false

/-- Number of page-IO operations issued before the first batch is awaited:
all of these are concurrently in flight at the instant the creation loop
ends, since no completion callback can run during the synchronous loop. -/
def startsBeforeFirstAwait (tr : List ExtractEvent) : ℕ :=
  (tr.takeWhile isStartEvent).length

/-- C8, failing input: a fresh state and `extractPDFPagesUpTo(doc, 4)`.
The trace issues the page IO for all four candidate pages before the first
batch await, so four extractions are in flight at once — the batch loop
does not cap concurrency at 3. -/
theorem c8_concurrency_cap_violated :
    extractPDFPagesUpToTrace [] [] 4
        = [.startGetPage 1, .startGetPage 2, .startGetPage 3, .startGetPage 4,
           .awaitBatch 0, .awaitBatch 1]
      ∧ startsBeforeFirstAwait (extractPDFPagesUpToTrace [] [] 4) = 4 := by
  constructor
  · decide
  · decide

/-! ### Assistant gateway route (`POST /api/ai-assistant`)

Only the request-assembly portion is modelled: the provider messages built
from the validated request body.  Authentication, provider selection and
the streaming relay around it do not affect the truncation claim. -/

def jsSlice (s : String) (n : ℕ) : String := ⟨s.data.take n⟩

/-- Model of `arr.slice(-n)`: the last `n` elements (all of them when the array is
shorter). -/
def jsSliceLastN {α : Type} (n : ℕ) (l : List α) : List α := l.drop (l.length - n)

structure ProviderMessage where
  role : String
  content : String
deriving DecidableEq, Repr

def systemPrompt (bookTitle : String) (bookAuthor : Option String) (currentPosition : ℚ) :
    String :=
  "You are a reading assistant for \"" ++ bookTitle ++ "\""
    ++ (match bookAuthor with | some a => " by " ++ a | none => "")
    ++ ". The reader is currently at position " ++ toString currentPosition
    ++ ". IMPORTANT: Only discuss content from the provided context."
    ++ " Never reveal or hint at anything beyond what\x27s shown - no spoilers."

/-- The second system message: `CONTEXT:\n` plus
`bookContext.slice(0, 12000)` plus the `\n[truncated]` marker exactly when
`bookContext.length > 12000`. -/
def contextMessageContent (bookContext : String) : String :=
  "CONTEXT:\n" ++ jsSlice bookContext 12000
    ++ (if bookContext.length > 12000 then "\n[truncated]" else "")

/-- The `messages` array sent to the OpenAI-compatible provider: the two
system messages, the last six history entries mapped to role/content, and
the user message. -/
def buildMessages (message bookContext bookTitle : String) (bookAuthor : Option String)
    (currentPosition : ℚ) (chatHistory : List ProviderMessage) : List ProviderMessage :=
  [⟨"system", systemPrompt bookTitle bookAuthor currentPosition⟩,
    ⟨"system", contextMessageContent bookContext⟩]
    ++ (jsSliceLastN 6 chatHistory).map (fun m => ⟨m.role, m.content⟩)
    ++ [⟨"user", message⟩]

theorem strAppendEmpty (s : String) : s ++ "" = s := by
  show String.mk (s.data ++ []) = s
  rw [List.append_nil]

/-- C9: the context forwarded to the provider is exactly the first 12000
characters of the bounded context (a prefix of it, of length at most
12000); the `[truncated]` marker is appended exactly when the context
exceeds 12000 characters, and a context within the limit is forwarded
verbatim with nothing appended. -/
theorem c9_context_truncation (message bookContext bookTitle : String)
    (bookAuthor : Option String) (currentPosition : ℚ)
    (chatHistory : List ProviderMessage) :
    buildMessages message bookContext bookTitle bookAuthor currentPosition chatHistory
        = ⟨"system", systemPrompt bookTitle bookAuthor currentPosition⟩
            :: ⟨"system", contextMessageContent bookContext⟩
            :: ((jsSliceLastN 6 chatHistory).map (fun m => ⟨m.role, m.content⟩)
                ++ [⟨"user", message⟩])
      ∧ (jsSlice bookContext 12000).length ≤ 12000
      ∧ jsSlice bookContext 12000 ++ (⟨bookContext.data.drop 12000⟩ : String) = bookContext
      ∧ (bookContext.length ≤ 12000 →
          contextMessageContent bookContext = "CONTEXT:\n" ++ bookContext)
      ∧ (12000 < bookContext.length →
          contextMessageContent bookContext
            = "CONTEXT:\n" ++ jsSlice bookContext 12000 ++ "\n[truncated]") := by
  refine ⟨by rfl, ?_, ?_, ?_, ?_⟩
  · show (bookContext.data.take 12000).length ≤ 12000
    rw [List.length_take]
    exact min_le_left _ _
  · show String.mk (bookContext.data.take 12000 ++ bookContext.data.drop 12000) = bookContext
    rw [List.take_append_drop]
  · intro h
    have hslice : jsSlice bookContext 12000 = bookContext := by
      show String.mk (bookContext.data.take 12000) = bookContext
      rw [List.take_of_length_le h]
    unfold contextMessageContent
    rw [if_neg (not_lt.mpr h), strAppendEmpty, hslice]
  · intro h
    unfold contextMessageContent
    rw [if_pos h]

/-- C9 witness: a short context is forwarded verbatim with no marker. -/
theorem c9_context_truncation_witness :
    contextMessageContent "abc" = "CONTEXT:\n" ++ "abc" :=
  (c9_context_truncation "m" "abc" "t" none 0 []).2.2.2.1 (by decide)

end BookSync
